import Mathlib

/-!
# Verification of the NIST report output validator

A shallow embedding of `output_validator.py` (class `NISTOutputValidator`).
Report text is modelled as `List Char`; the three finding buckets
(`self.errors`, `self.warnings`, `self.passed_checks`) as lists of message
strings; the regular expressions used by the validator — all of which are
built from literal characters, `.`, `\d`, the two bounded quantifiers
`[^\s\)]+` / `[^/\s]+` and `.*` inside one fixed pattern — are embedded by
dedicated matching functions whose doc comments record the correspondence.
Python exceptions (the `IndexError` that `pub_id.split('-')[1]` would raise
on a hyphen-free identifier) are modelled with `Except`.
-/

namespace NISTValidator

/-- ASCII lower-casing: the effect of `re.IGNORECASE` on the ASCII-only
patterns the validator uses. -/
def lowerAscii (c : Char) : Char :=
  if 'A' ≤ c ∧ c ≤ 'Z' then Char.ofNat (c.toNat + 32) else c

/-- Python regex `\s` on the ASCII range (the characters relevant to the
character classes `[^\s\)]` and `[^/\s]`). -/
def pySpace (c : Char) : Bool :=
  c == ' ' || c == '\t' || c == '\n' || c == '\r' || c == '\x0b' || c == '\x0c'

/-- `needle` occurs at the head of `hay` (character-exact). -/
def startsWithL : List Char → List Char → Bool
  | [], _ => true
  | _ :: _, [] => false
  | a :: as, b :: bs => a == b && startsWithL as bs

/-- Python's substring test `needle in hay` (case-sensitive). -/
def listContainsSub (needle : List Char) : List Char → Bool
  | [] => startsWithL needle []
  | c :: cs => startsWithL needle (c :: cs) || listContainsSub needle cs

/-- Python `str.split(sep)` for a one-character separator. -/
def splitOnChar (sep : Char) : List Char → List (List Char)
  | [] => [[]]
  | c :: cs =>
    let r := splitOnChar sep cs
    if c == sep then [] :: r
    else
      match r with
      | [] => [[c]]
      | g :: gs => (c :: g) :: gs

/-- One fixed-width atom of the validator's search patterns: a literal
character, `.` (any character except newline), or `\d`. -/
inductive Atom where
  | lit (c : Char)
  | anyc
  | adigit
deriving Repr, DecidableEq

/-- Whether an atom matches one character; `ci` is `re.IGNORECASE`
(`\d` is restricted to ASCII digits, the only digits occurring here). -/
def atomMatch (ci : Bool) : Atom → Char → Bool
  | .lit p, c => if ci then lowerAscii p == lowerAscii c else p == c
  | .anyc, c => c != '\n'
  | .adigit, c => c.isDigit

/-- The fixed-width pattern `pat` matches at the head of `s`. -/
def matchAtomsAt (ci : Bool) : List Atom → List Char → Bool
  | [], _ => true
  | _ :: _, [] => false
  | a :: ps, c :: cs => atomMatch ci a c && matchAtomsAt ci ps cs

/-- `re.search` for a fixed-width pattern: index of the leftmost match. -/
def searchIdx (ci : Bool) (pat : List Atom) : List Char → Option Nat
  | [] => if matchAtomsAt ci pat [] then some 0 else none
  | c :: cs =>
    if matchAtomsAt ci pat (c :: cs) then some 0
    else (searchIdx ci pat cs).map (· + 1)

/-- `re.findall` for a fixed-width pattern: leftmost, non-overlapping
matches, resuming after each match (after one character for a width-zero
pattern, as Python does).  The fuel argument bounds the number of scan
steps; `findAllFixed` supplies the input length, which always suffices
because every step consumes at least one character. -/
def findAllFixedGo (ci : Bool) (pat : List Atom) : Nat → List Char → List (List Char)
  | 0, _ => []
  | _ + 1, [] => []
  | fuel + 1, c :: cs =>
    if matchAtomsAt ci pat (c :: cs) then
      (c :: cs).take pat.length :: findAllFixedGo ci pat fuel ((c :: cs).drop (max pat.length 1))
    else
      findAllFixedGo ci pat fuel cs

/-- `re.findall(pattern, s)` for a fixed-width pattern. -/
def findAllFixed (ci : Bool) (pat : List Atom) (s : List Char) : List (List Char) :=
  findAllFixedGo ci pat s.length s

/-- `_get_context(content, pattern, chars)`: the slice
`content[max(0, m.start() - chars) : min(len(content), m.end() + chars)]`
around the first match `m` of `pat` (the patterns passed here are
fixed-width, so `m.end() = m.start() + pat.length`); `""` when `pat` does
not occur.  Natural-number subtraction supplies the `max(0, ...)` clamp. -/
def getContext (ci : Bool) (content : List Char) (pat : List Atom) (chars : Nat) : List Char :=
  match searchIdx ci pat content with
  | some i => (content.take (min content.length (i + pat.length + chars))).drop (i - chars)
  | none => []

/-- The three finding buckets of `NISTOutputValidator`, in declaration
order `errors`, `warnings`, `passed_checks`; each bucket keeps its
messages in emission order. -/
structure VState where
  errors : List String
  warnings : List String
  passed_checks : List String
deriving Repr, DecidableEq

/-- The bucket state established by `__init__`: all three lists empty. -/
def VState.init : VState := ⟨[], [], []⟩

/-- `self.errors.append(m)`. -/
def VState.addError (st : VState) (m : String) : VState :=
  { st with errors := st.errors ++ [m] }

/-- `self.warnings.append(m)`. -/
def VState.addWarning (st : VState) (m : String) : VState :=
  { st with warnings := st.warnings ++ [m] }

/-- `self.passed_checks.append(m)`. -/
def VState.addPass (st : VState) (m : String) : VState :=
  { st with passed_checks := st.passed_checks ++ [m] }

/-- Pointwise concatenation of bucket states. -/
def VState.app (s t : VState) : VState :=
  ⟨s.errors ++ t.errors, s.warnings ++ t.warnings, s.passed_checks ++ t.passed_checks⟩

/-- `self.verified_pubs`: (identifier, canonical date, title) in insertion
order (Python dictionaries iterate in insertion order). -/
def verified_pubs : List (String × String × String) :=
  [("800-218A", "2024-07-26", "SSDF Community Profile for Generative AI"),
   ("800-171r3", "2024-05-15", "Protecting Controlled Unclassified Information"),
   ("csf-2.0", "2024-02-26", "Cybersecurity Framework 2.0"),
   ("800-204D", "2024-02-01", "Software Supply Chain Security in DevSecOps"),
   ("800-218", "2022-02-04", "Secure Software Development Framework"),
   ("800-161r1", "2022-05-13", "Cybersecurity Supply Chain Risk Management"),
   ("800-215", "2022-11-17", "Guide to a Secure Enterprise Network Landscape"),
   ("800-53r5", "2020-09-23", "Security and Privacy Controls"),
   ("800-190", "2017-09-01", "Application Container Security Guide")]

/-- `self.invalid_pubs`. -/
def invalid_pubs : List String := ["800-204C", "800-210"]

/-- `required_sections` of `_check_required_sections`. -/
def required_sections : List String :=
  ["Executive Summary",
   "Latest Updates Discovered",
   "Impact on Software Development Organizations",
   "Key Actions and Checklist",
   "References and Citations",
   "Quick Reference Table"]

/-- `key_pubs` of `_check_publication_coverage`. -/
def key_pubs : List String := ["800-218A", "800-218", "800-171", "800-204D"]

def sectionFoundMsg (s : String) : String := "✓ Section found: " ++ s

def sectionMissingMsg (s : String) : String := "✗ Missing required section: " ++ s

/-- `_check_required_sections`. -/
def checkRequiredSections (st : VState) (content : List Char) : VState :=
  required_sections.foldl
    (fun st s =>
      if listContainsSub s.toList content then st.addPass (sectionFoundMsg s)
      else st.addError (sectionMissingMsg s)) st

/-- `pub_id.split('-')[1]`; `none` models the `IndexError` Python raises
when the identifier contains no hyphen. -/
def splitSuffix (pid : String) : Option String :=
  ((splitOnChar '-' pid.toList)[1]?).map List.asString

/-- The first search pattern `rf"800-{pub_id.split('-')[1]}"`. -/
def numericPatternStr (pid : String) : Option String :=
  (splitSuffix pid).map (fun suf => "800-" ++ suf)

/-- The second search pattern `rf"SP {pub_id.replace('-', ' ')}"`. -/
def spPatternStr (pid : String) : String :=
  "SP " ++ (pid.toList.map (fun c => if c == '-' then ' ' else c)).asString

/-- Compile a pattern string into atoms: `.` is the regex any-character
atom; every other character occurring in these identifiers is a regex
literal. -/
def compilePat (s : String) : List Atom :=
  s.toList.map (fun c => if c == '.' then Atom.anyc else Atom.lit c)

/-- The date pattern `\d{4}-\d{2}-\d{2}`. -/
def isoDatePat : List Atom :=
  [.adigit, .adigit, .adigit, .adigit, .lit '-', .adigit, .adigit, .lit '-', .adigit, .adigit]

def dateOkMsg (pid date : String) : String :=
  "✓ Correct date for " ++ pid ++ ": " ++ date

def dateBadMsg (pid date found : String) : String :=
  "⚠ Possible incorrect date for " ++ pid ++ ". Expected: " ++ date ++ ", Found: " ++ found

/-- Body of the `for pattern in patterns` loop of
`_check_publication_dates`: if the pattern occurs (case-insensitively),
scan the ±200-character context of its first occurrence for ISO dates and
append a Pass when the canonical date is among them, a Warning when other
dates are found, and nothing when none are. -/
def datePatternStep (content : List Char) (pid date : String) (st : VState) (pat : List Atom) : VState :=
  if (searchIdx true pat content).isSome then
    let ds := findAllFixed false isoDatePat (getContext true content pat 200)
    if date.toList ∈ ds then st.addPass (dateOkMsg pid date)
    else
      match ds with
      | [] => st
      | d :: _ => st.addWarning (dateBadMsg pid date d.asString)
  else st

/-- One iteration of `_check_publication_dates` over a `verified_pubs`
entry; `Except.error` models the `IndexError` Python would raise while
building `patterns` if the identifier had no hyphen. -/
def datePubStep (content : List Char) (st : VState) : String × String × String → Except String VState
  | (pid, date, _) =>
    match numericPatternStr pid with
    | none => Except.error "IndexError: list index out of range"
    | some numStr =>
      Except.ok (([compilePat numStr, compilePat (spPatternStr pid)]).foldl
        (datePatternStep content pid date) st)

/-- `_check_publication_dates`. -/
def checkPublicationDates (st : VState) (content : List Char) : Except String VState :=
  verified_pubs.foldlM (datePubStep content) st

def invalidFoundMsg (p : String) : String := "✗ Invalid publication referenced: " ++ p

def invalidAbsentMsg (p : String) : String := "✓ No reference to invalid publication: " ++ p

/-- `_check_invalid_publications`. -/
def checkInvalidPublications (st : VState) (content : List Char) : VState :=
  invalid_pubs.foldl
    (fun st p =>
      if listContainsSub p.toList content then st.addError (invalidFoundMsg p)
      else st.addPass (invalidAbsentMsg p)) st

/-- The literal part of `r'https://csrc\.nist\.gov[^\s\)]+'`. -/
def nistUrlStart : List Char := "https://csrc.nist.gov".toList

/-- One character of the class `[^\s\)]`. -/
def urlChar (c : Char) : Bool := !pySpace c && c != ')'

/-- `re.findall(r'https://csrc\.nist\.gov[^\s\)]+', content)`: scan left
to right; at a position where the literal prefix is followed by a
non-empty maximal (greedy) run of `[^\s\)]` characters, yield
prefix-plus-run and resume right after it; otherwise advance one
character.  Fuel as in `findAllFixedGo`. -/
def findURLsGo : Nat → List Char → List (List Char)
  | 0, _ => []
  | _ + 1, [] => []
  | fuel + 1, c :: cs =>
    if startsWithL nistUrlStart (c :: cs) then
      let rest := (c :: cs).drop nistUrlStart.length
      let run := rest.takeWhile urlChar
      if run.isEmpty then findURLsGo fuel cs
      else (nistUrlStart ++ run) :: findURLsGo fuel (rest.drop run.length)
    else findURLsGo fuel cs

/-- The URL extraction of `_check_urls`. -/
def findURLs (content : List Char) : List (List Char) :=
  findURLsGo content.length content

/-- The literal head of `correct_pattern`. -/
def urlPathStart : List Char := "https://csrc.nist.gov/pubs/sp/".toList

/-- One character of the class `[^/\s]`. -/
def segChar (c : Char) : Bool := !pySpace c && c != '/'

/-- `re.match(r'https://csrc\.nist\.gov/pubs/sp/\d+/[^/\s]+/final', url)`,
anchored at the start of `url` only.  Backtracking cannot help either
quantifier: `\d+` is followed by the literal `/`, which no shorter digit
run can reach (the next character would still be a digit), and `[^/\s]+`
is likewise followed by `/`, a character it can never contain — so both
take their maximal greedy runs, as computed here with `takeWhile`. -/
def urlWellFormed (url : List Char) : Bool :=
  if startsWithL urlPathStart url then
    let r1 := url.drop urlPathStart.length
    let ds := r1.takeWhile Char.isDigit
    if ds.isEmpty then false
    else
      match r1.drop ds.length with
      | '/' :: r3 =>
        let seg := r3.takeWhile segChar
        !seg.isEmpty && startsWithL "/final".toList (r3.drop seg.length)
      | _ => false
  else false

def urlOkMsg (u : String) : String := "✓ Correct URL format: " ++ u

def urlBadMsg (u : String) : String := "⚠ Check URL format: " ++ u

/-- `_check_urls`. -/
def checkUrls (st : VState) (content : List Char) : VState :=
  (findURLs content).foldl
    (fun st url =>
      if urlWellFormed url then st.addPass (urlOkMsg url.asString)
      else st.addWarning (urlBadMsg url.asString)) st

/-- Leftmost match of `\|.*\|.*\|` at the head of `s`, with its length.
`.` does not match a newline, so a match lies within the current line; the
pattern requires a leading `|` and at least two further `|` on that line,
and greedy matching extends the match to the line's last `|`. -/
def tableRowMatchLen : List Char → Option Nat
  | [] => none
  | c :: cs =>
    if c == '|' then
      let line := (c :: cs).takeWhile (fun x => x != '\n')
      if 3 ≤ line.count '|' then
        some (line.length - (line.reverse.takeWhile (fun x => x != '|')).length)
      else none
    else none

/-- `len(re.findall(r'\|.*\|.*\|', content))`: count leftmost,
non-overlapping matches, resuming after each match.  Fuel as above. -/
def tableRowScanGo : Nat → List Char → Nat
  | 0, _ => 0
  | _ + 1, [] => 0
  | fuel + 1, c :: cs =>
    match tableRowMatchLen (c :: cs) with
    | some k => 1 + tableRowScanGo fuel ((c :: cs).drop (max k 1))
    | none => tableRowScanGo fuel cs

/-- `len(table_headers)` in `_check_duplicate_tables`. -/
def tableRowScan (content : List Char) : Nat :=
  tableRowScanGo content.length content

def dupTablesMsg (n : Nat) : String :=
  "⚠ Multiple tables detected (" ++ toString n ++ " rows). Verify no duplicates."

def singleTableMsg : String := "✓ Single reference table (no duplicates)"

/-- `_check_duplicate_tables`. -/
def checkDuplicateTables (st : VState) (content : List Char) : VState :=
  let n := tableRowScan content
  if 5 < n then st.addWarning (dupTablesMsg n) else st.addPass singleTableMsg

/-- Python `", ".join(l)`. -/
def joinCommaSep : List String → String
  | [] => ""
  | [x] => x
  | x :: xs => x ++ ", " ++ joinCommaSep xs

def missingPubsMsg (missing : List String) : String :=
  "⚠ Key publications not mentioned: " ++ joinCommaSep missing

def allPubsMsg : String := "✓ All key publications referenced"

/-- `_check_publication_coverage`. -/
def checkPublicationCoverage (st : VState) (content : List Char) : VState :=
  let missing := key_pubs.filter (fun p => !listContainsSub p.toList content)
  if missing.isEmpty then st.addPass allPubsMsg
  else st.addWarning (missingPubsMsg missing)

/-- The dictionary returned by `_generate_report`; the `errors` /
`warnings` count keys are present only on the branch that adds them,
modelled by `Option`. -/
structure ReportObj where
  status : String
  errorsCount : Option Nat
  warningsCount : Option Nat
deriving Repr, DecidableEq

/-- The verdict computation at the end of `_generate_report`. -/
def generateReport (st : VState) : ReportObj :=
  if !st.errors.isEmpty then ⟨"failed", some st.errors.length, none⟩
  else if !st.warnings.isEmpty then ⟨"passed_with_warnings", none, some st.warnings.length⟩
  else ⟨"passed", none, none⟩

/-- The check sequence `validate_file` runs once the file is read, in
source order. -/
def runChecks (st : VState) (content : List Char) : Except String VState := do
  let st ← checkPublicationDates (checkRequiredSections st content) content
  Except.ok (checkPublicationCoverage
    (checkDuplicateTables (checkUrls (checkInvalidPublications st content) content) content)
    content)

/-- `validate_file` minus the file I/O: run the checks, then produce the
report dictionary. -/
def validateContent (st : VState) (content : List Char) : Except String ReportObj :=
  (runChecks st content).map generateReport

/-- Outcome of attempting to read the report file inside `validate_file`. -/
inductive ReadResult where
  | notFound
  | fault (msg : String)
  | ok (content : List Char)

/-- `validate_file`: `FileNotFoundError` and any other exception
(including one raised inside the checks) are caught and become
`sys.exit(1)`, modelled as `Except.error 1`; otherwise the report
dictionary is returned. -/
def validateFileOutcome (rr : ReadResult) : Except Nat ReportObj :=
  match rr with
  | .notFound => Except.error 1
  | .fault _ => Except.error 1
  | .ok content =>
    match validateContent VState.init content with
    | Except.error _ => Except.error 1
    | Except.ok rep => Except.ok rep

/-- `main`: exit 1 when no path argument is supplied; otherwise construct
a fresh validator, run `validate_file`, and exit 1 exactly when the
returned status is `"failed"`, else 0. -/
def mainExit (hasPathArg : Bool) (rr : ReadResult) : Nat :=
  if hasPathArg then
    match validateFileOutcome rr with
    | Except.error n => n
    | Except.ok rep => if rep.status = "failed" then 1 else 0
  else 1

/-- Report produced by a second `validate_file` call on the same validator
instance after a first call on `first` (file I/O elided): the buckets left
by the first run are the starting state of the second. -/
def secondRunReport (first second : List Char) : Except String ReportObj :=
  (runChecks VState.init first).bind (fun st => validateContent st second)

/-! ## Specification-side descriptions of the emitted findings

The definitions below restate what each check emits as explicit lists of
severity-tagged findings, to be proved equal to the bucket deltas the
state-threading implementation produces. -/

/-- Severity of a finding: which bucket it is routed to. -/
inductive Sev where
  | pass
  | warn
  | err
deriving Repr, DecidableEq

/-- Route one finding into the bucket matching its severity. -/
def applyOne (st : VState) : Sev × String → VState
  | (.pass, m) => st.addPass m
  | (.warn, m) => st.addWarning m
  | (.err, m) => st.addError m

/-- Route an optional finding (checks sometimes emit nothing). -/
def applyFinding (st : VState) : Option (Sev × String) → VState
  | none => st
  | some f => applyOne st f

/-- Route a list of findings in order. -/
def applyFindings (st : VState) (l : List (Sev × String)) : VState :=
  l.foldl applyOne st

/-- The messages of severity `s` in a finding list, in order. -/
def sevMsgs (s : Sev) (l : List (Sev × String)) : List String :=
  l.filterMap (fun f => if f.1 = s then some f.2 else none)

/-- The finding (if any) the date-consistency check emits for one search
pattern of one publication: nothing when the pattern does not occur in the
report; otherwise a Pass when the canonical date is among the ISO dates of
the ±200-character window around the first occurrence, a Warning naming
the expected and first-found date when other dates occur there, and
nothing when the window holds no ISO date at all. -/
def datePatFinding (content : List Char) (pid date : String) (pat : List Atom) :
    Option (Sev × String) :=
  if (searchIdx true pat content).isSome then
    let ds := findAllFixed false isoDatePat (getContext true content pat 200)
    if date.toList ∈ ds then some (Sev.pass, dateOkMsg pid date)
    else
      match ds with
      | [] => none
      | d :: _ => some (Sev.warn, dateBadMsg pid date d.asString)
  else none

/-- All findings the date-consistency check emits for one reference-table
entry: one optional finding per search pattern, numeric pattern first. -/
def datePubFindings (content : List Char) : String × String × String → List (Sev × String)
  | (pid, date, _) =>
    match numericPatternStr pid with
    | none => []
    | some numStr =>
      ([compilePat numStr, compilePat (spPatternStr pid)]).filterMap
        (datePatFinding content pid date)

/-- All findings of the date-consistency check, in table order. -/
def dateFindings (content : List Char) : List (Sev × String) :=
  (verified_pubs.map (datePubFindings content)).flatten

/-- Pass messages the date-consistency check appends, in order. -/
def datePassMsgs (content : List Char) : List String :=
  sevMsgs Sev.pass (dateFindings content)

/-- Warning messages the date-consistency check appends, in order. -/
def dateWarnMsgs (content : List Char) : List String :=
  sevMsgs Sev.warn (dateFindings content)

/-- Error messages of the section-presence check: one per missing heading,
in list order. -/
def sectionsMissing (content : List Char) : List String :=
  (required_sections.filter (fun s => !listContainsSub s.toList content)).map sectionMissingMsg

/-- Pass messages of the section-presence check: one per present heading. -/
def sectionsFound (content : List Char) : List String :=
  (required_sections.filter (fun s => listContainsSub s.toList content)).map sectionFoundMsg

/-- Error messages of the invalid-reference check. -/
def invalidErrors (content : List Char) : List String :=
  (invalid_pubs.filter (fun p => listContainsSub p.toList content)).map invalidFoundMsg

/-- Pass messages of the invalid-reference check. -/
def invalidPasses (content : List Char) : List String :=
  (invalid_pubs.filter (fun p => !listContainsSub p.toList content)).map invalidAbsentMsg

/-- Pass messages of the URL-format check: one per well-formed URL. -/
def urlPasses (content : List Char) : List String :=
  ((findURLs content).filter urlWellFormed).map (fun u => urlOkMsg u.asString)

/-- Warning messages of the URL-format check: one per ill-formed URL. -/
def urlWarnings (content : List Char) : List String :=
  ((findURLs content).filter (fun u => !urlWellFormed u)).map (fun u => urlBadMsg u.asString)

/-- Bucket state after the first two checks (section presence, then the
date-consistency check) have run from `st`. -/
def afterDates (st : VState) (content : List Char) : VState :=
  { errors := st.errors ++ sectionsMissing content,
    warnings := st.warnings ++ dateWarnMsgs content,
    passed_checks := st.passed_checks ++ sectionsFound content ++ datePassMsgs content }

/-- Number of lines (groups between newline separators) holding at least
`k` pipe characters — the line shape the duplicate-table heuristic counts. -/
def linesWithPipes (k : Nat) (content : List Char) : Nat :=
  ((splitOnChar '\n' content).filter (fun l => k ≤ l.count '|')).length

/-! ## Concrete report texts used by counterexamples and witnesses -/

/-- A report consisting of the six required headings and nothing else. -/
def fullHeadingsText : List Char :=
  ("Executive Summary\nLatest Updates Discovered\nImpact on Software Development Organizations\nKey Actions and Checklist\nReferences and Citations\nQuick Reference Table\n").toList

/-- A report that mentions publication `800-215` and nothing else. -/
def mentionOnlyText : List Char := "800-215".toList

/-- A report that never mentions CSF 2.0 but holds `800-210` next to the
ISO date `2024-02-26`. -/
def csfBleedText : List Char := "800-210 was published on 2024-02-26.".toList

/-- The canonical NIST URL of SP 800-218A, whose revision segment is the
sub-revision path `218/a`. -/
def subRevisionUrl : List Char :=
  "https://csrc.nist.gov/pubs/sp/800/218/a/final".toList

/-- A report containing exactly the SP 800-218A URL. -/
def subRevisionReport : List Char :=
  "See https://csrc.nist.gov/pubs/sp/800/218/a/final now".toList

/-- Six lines with exactly two pipe characters each. -/
def twoPipeLinesText : List Char :=
  "|a|\n|a|\n|a|\n|a|\n|a|\n|a|".toList

/-! ## Helper lemmas: bucket algebra -/

theorem VState.app_init_right (st : VState) : st.app VState.init = st := by
  simp [VState.app, VState.init]

theorem VState.addError_app (s t : VState) (m : String) :
    (s.app t).addError m = s.app (t.addError m) := by
  simp [VState.app, VState.addError]

theorem VState.addWarning_app (s t : VState) (m : String) :
    (s.app t).addWarning m = s.app (t.addWarning m) := by
  simp [VState.app, VState.addWarning]

theorem VState.addPass_app (s t : VState) (m : String) :
    (s.app t).addPass m = s.app (t.addPass m) := by
  simp [VState.app, VState.addPass]

/-- Folding a pass-or-error emitting body splits into the two filtered
message lists, appended to the respective buckets. -/
theorem foldl_pass_err {α : Type} (P : α → Bool) (fP fE : α → String) :
    ∀ (l : List α) (st : VState),
      l.foldl (fun st x => if P x then st.addPass (fP x) else st.addError (fE x)) st =
        { errors := st.errors ++ (l.filter (fun x => !P x)).map fE,
          warnings := st.warnings,
          passed_checks := st.passed_checks ++ (l.filter P).map fP } := by
  intro l
  induction l with
  | nil => intro st; simp
  | cons a l ih =>
    intro st
    by_cases h : P a
    · rw [List.foldl_cons, if_pos h, ih]
      simp [VState.addPass, List.filter_cons, h]
    · rw [List.foldl_cons, if_neg h, ih]
      simp [VState.addError, List.filter_cons, h]

/-- Variant of `foldl_pass_err` for an error-or-pass emitting body. -/
theorem foldl_err_pass {α : Type} (P : α → Bool) (fE fP : α → String) :
    ∀ (l : List α) (st : VState),
      l.foldl (fun st x => if P x then st.addError (fE x) else st.addPass (fP x)) st =
        { errors := st.errors ++ (l.filter P).map fE,
          warnings := st.warnings,
          passed_checks := st.passed_checks ++ (l.filter (fun x => !P x)).map fP } := by
  intro l
  induction l with
  | nil => intro st; simp
  | cons a l ih =>
    intro st
    by_cases h : P a
    · rw [List.foldl_cons, if_pos h, ih]
      simp [VState.addError, List.filter_cons, h]
    · rw [List.foldl_cons, if_neg h, ih]
      simp [VState.addPass, List.filter_cons, h]

/-- Variant of `foldl_pass_err` for a pass-or-warning emitting body. -/
theorem foldl_pass_warn {α : Type} (P : α → Bool) (fP fW : α → String) :
    ∀ (l : List α) (st : VState),
      l.foldl (fun st x => if P x then st.addPass (fP x) else st.addWarning (fW x)) st =
        { errors := st.errors,
          warnings := st.warnings ++ (l.filter (fun x => !P x)).map fW,
          passed_checks := st.passed_checks ++ (l.filter P).map fP } := by
  intro l
  induction l with
  | nil => intro st; simp
  | cons a l ih =>
    intro st
    by_cases h : P a
    · rw [List.foldl_cons, if_pos h, ih]
      simp [VState.addPass, List.filter_cons, h]
    · rw [List.foldl_cons, if_neg h, ih]
      simp [VState.addWarning, List.filter_cons, h]

/-- Characterization of the section-presence check. -/
theorem checkRequiredSections_eq (st : VState) (content : List Char) :
    checkRequiredSections st content =
      { errors := st.errors ++ sectionsMissing content,
        warnings := st.warnings,
        passed_checks := st.passed_checks ++ sectionsFound content } := by
  unfold checkRequiredSections sectionsMissing sectionsFound
  exact foldl_pass_err (fun s => listContainsSub s.toList content) sectionFoundMsg
    sectionMissingMsg required_sections st

/-- Characterization of the invalid-reference check. -/
theorem checkInvalidPublications_eq (st : VState) (content : List Char) :
    checkInvalidPublications st content =
      { errors := st.errors ++ invalidErrors content,
        warnings := st.warnings,
        passed_checks := st.passed_checks ++ invalidPasses content } := by
  unfold checkInvalidPublications invalidErrors invalidPasses
  exact foldl_err_pass (fun p => listContainsSub p.toList content) invalidFoundMsg
    invalidAbsentMsg invalid_pubs st

/-- Characterization of the URL-format check. -/
theorem checkUrls_eq (st : VState) (content : List Char) :
    checkUrls st content =
      { errors := st.errors,
        warnings := st.warnings ++ urlWarnings content,
        passed_checks := st.passed_checks ++ urlPasses content } := by
  unfold checkUrls urlWarnings urlPasses
  exact foldl_pass_warn urlWellFormed (fun u => urlOkMsg u.asString)
    (fun u => urlBadMsg u.asString) (findURLs content) st

/-! ## Helper lemmas: severity-tagged finding lists -/

theorem applyFindings_append (st : VState) (a b : List (Sev × String)) :
    applyFindings st (a ++ b) = applyFindings (applyFindings st a) b := by
  unfold applyFindings
  exact List.foldl_append ..

/-- Routing a finding list appends the per-severity message lists to the
matching buckets. -/
theorem applyFindings_eq :
    ∀ (l : List (Sev × String)) (st : VState),
      applyFindings st l =
        { errors := st.errors ++ sevMsgs Sev.err l,
          warnings := st.warnings ++ sevMsgs Sev.warn l,
          passed_checks := st.passed_checks ++ sevMsgs Sev.pass l } := by
  intro l
  induction l with
  | nil => intro st; simp [applyFindings, sevMsgs]
  | cons f l ih =>
    intro st
    obtain ⟨s, m⟩ := f
    have hstep : applyFindings st ((s, m) :: l) = applyFindings (applyOne st (s, m)) l := rfl
    rw [hstep, ih]
    cases s <;>
      simp [applyOne, sevMsgs, VState.addPass, VState.addWarning, VState.addError,
        List.filterMap_cons]

/-- Folding a body that routes an optional finding equals routing the
`filterMap` of the finding function. -/
theorem foldl_applyFinding {α : Type} (g : α → Option (Sev × String)) :
    ∀ (l : List α) (st : VState),
      l.foldl (fun st x => applyFinding st (g x)) st = applyFindings st (l.filterMap g) := by
  intro l
  induction l with
  | nil => intro st; rfl
  | cons a l ih =>
    intro st
    rw [List.foldl_cons, ih]
    cases hg : g a with
    | none => rw [List.filterMap_cons_none hg]; rfl
    | some f => rw [List.filterMap_cons_some hg]; rfl

/-- The date-check loop body routes exactly the finding described by
`datePatFinding`. -/
theorem datePatternStep_eq (content : List Char) (pid date : String) (st : VState)
    (pat : List Atom) :
    datePatternStep content pid date st pat =
      applyFinding st (datePatFinding content pid date pat) := by
  unfold datePatternStep datePatFinding
  dsimp only
  split
  · split
    · rfl
    · split <;> rfl
  · rfl

/-- Characterization of `_check_publication_dates` over any pub list whose
identifiers all contain a hyphen. -/
theorem foldlM_datePubStep (content : List Char) :
    ∀ (pubs : List (String × String × String)),
      (∀ p ∈ pubs, (numericPatternStr p.1).isSome) →
      ∀ st : VState,
        pubs.foldlM (datePubStep content) st =
          Except.ok (applyFindings st ((pubs.map (datePubFindings content)).flatten)) := by
  intro pubs
  induction pubs with
  | nil => intro _ st; simp [applyFindings]; rfl
  | cons p ps ih =>
    intro hall st
    obtain ⟨pid, date, title⟩ := p
    have hp : (numericPatternStr pid).isSome := hall _ (List.mem_cons_self _ _)
    obtain ⟨numStr, hnum⟩ := Option.isSome_iff_exists.mp hp
    have hstep : datePubStep content st (pid, date, title) =
        Except.ok (applyFindings st (datePubFindings content (pid, date, title))) := by
      unfold datePubStep datePubFindings
      dsimp only
      rw [hnum]
      dsimp only
      congr 1
      rw [show datePatternStep content pid date =
            (fun st' pat => applyFinding st' (datePatFinding content pid date pat)) from
          funext fun st' => funext fun pat => datePatternStep_eq content pid date st' pat]
      exact foldl_applyFinding (datePatFinding content pid date) _ st
    rw [List.foldlM_cons, hstep]
    have hbind : (Except.ok (applyFindings st (datePubFindings content (pid, date, title)))
        >>= fun st' => ps.foldlM (datePubStep content) st') =
        ps.foldlM (datePubStep content)
          (applyFindings st (datePubFindings content (pid, date, title))) := rfl
    rw [hbind, ih (fun q hq => hall q (List.mem_cons_of_mem _ hq))]
    rw [List.map_cons, List.flatten_cons, applyFindings_append]

/-- Every identifier of the reference table contains a hyphen. -/
theorem verified_pubs_split : ∀ p ∈ verified_pubs, (numericPatternStr p.1).isSome := by
  decide

theorem sevMsgs_eq_nil (s : Sev) :
    ∀ l : List (Sev × String), (∀ f ∈ l, f.1 ≠ s) → sevMsgs s l = [] := by
  intro l
  induction l with
  | nil => intro _; rfl
  | cons f l ih =>
    intro h
    unfold sevMsgs
    rw [List.filterMap_cons]
    have hf : f.1 ≠ s := h f (List.mem_cons_self _ _)
    rw [if_neg hf]
    exact ih (fun g hg => h g (List.mem_cons_of_mem _ hg))

/-- The date-consistency check emits only Pass and Warning findings. -/
theorem datePatFinding_not_err (content : List Char) (pid date : String) (pat : List Atom)
    (f : Sev × String) (h : datePatFinding content pid date pat = some f) :
    f.1 ≠ Sev.err := by
  unfold datePatFinding at h
  dsimp only at h
  split at h
  · split at h
    · cases h; simp
    · split at h
      · cases h
      · cases h; simp
  · cases h

/-- The date-consistency check contributes nothing to the `errors` bucket. -/
theorem dateFindings_no_err (content : List Char) :
    sevMsgs Sev.err (dateFindings content) = [] := by
  apply sevMsgs_eq_nil
  intro f hf
  unfold dateFindings at hf
  rw [List.mem_flatten] at hf
  obtain ⟨l, hl, hfl⟩ := hf
  rw [List.mem_map] at hl
  obtain ⟨p, _, hpl⟩ := hl
  obtain ⟨pid, date, title⟩ := p
  subst hpl
  unfold datePubFindings at hfl
  dsimp only at hfl
  rcases hns : numericPatternStr pid with _ | numStr
  · rw [hns] at hfl; cases hfl
  · rw [hns] at hfl
    dsimp only at hfl
    rw [List.mem_filterMap] at hfl
    obtain ⟨pat, _, hpat⟩ := hfl
    exact datePatFinding_not_err content pid date pat f hpat

/-- Characterization of the date-consistency check: it always returns
normally, leaves `errors` untouched, and appends the spec-side warning and
pass message lists. -/
theorem checkPublicationDates_eq (st : VState) (content : List Char) :
    checkPublicationDates st content =
      Except.ok
        { errors := st.errors,
          warnings := st.warnings ++ dateWarnMsgs content,
          passed_checks := st.passed_checks ++ datePassMsgs content } := by
  unfold checkPublicationDates
  rw [foldlM_datePubStep content verified_pubs verified_pubs_split st]
  rw [show applyFindings st ((verified_pubs.map (datePubFindings content)).flatten) =
        applyFindings st (dateFindings content) from rfl]
  rw [applyFindings_eq, dateFindings_no_err]
  unfold dateWarnMsgs datePassMsgs
  simp

/-! ## Helper lemmas: the whole check sequence -/

/-- `runChecks` never fails and equals the remaining four checks applied to
the state `afterDates` left by the first two. -/
theorem runChecks_eq (st : VState) (content : List Char) :
    runChecks st content =
      Except.ok (checkPublicationCoverage
        (checkDuplicateTables
          (checkUrls (checkInvalidPublications (afterDates st content) content) content)
          content)
        content) := by
  unfold runChecks afterDates
  rw [checkRequiredSections_eq, checkPublicationDates_eq]
  rfl

theorem checkInvalidPublications_app (s t : VState) (content : List Char) :
    checkInvalidPublications (s.app t) content = s.app (checkInvalidPublications t content) := by
  rw [checkInvalidPublications_eq, checkInvalidPublications_eq]
  simp [VState.app]

theorem checkUrls_app (s t : VState) (content : List Char) :
    checkUrls (s.app t) content = s.app (checkUrls t content) := by
  rw [checkUrls_eq, checkUrls_eq]
  simp [VState.app]

theorem checkDuplicateTables_app (s t : VState) (content : List Char) :
    checkDuplicateTables (s.app t) content = s.app (checkDuplicateTables t content) := by
  unfold checkDuplicateTables
  by_cases h : 5 < tableRowScan content
  · rw [if_pos h, if_pos h, VState.addWarning_app]
  · rw [if_neg h, if_neg h, VState.addPass_app]

theorem checkPublicationCoverage_app (s t : VState) (content : List Char) :
    checkPublicationCoverage (s.app t) content = s.app (checkPublicationCoverage t content) := by
  unfold checkPublicationCoverage
  by_cases h : (key_pubs.filter (fun p => !listContainsSub p.toList content)).isEmpty
  · rw [if_pos h, if_pos h, VState.addPass_app]
  · rw [if_neg h, if_neg h, VState.addWarning_app]

theorem afterDates_app (s t : VState) (content : List Char) :
    afterDates (s.app t) content = s.app (afterDates t content) := by
  simp [afterDates, VState.app]

/-- Running the checks from a dirty bucket state yields the dirty buckets
with the fresh-run findings appended after them. -/
theorem runChecks_app (s t : VState) (content : List Char) :
    runChecks (s.app t) content = (runChecks t content).map (fun d => s.app d) := by
  rw [runChecks_eq, runChecks_eq]
  rw [afterDates_app, checkInvalidPublications_app, checkUrls_app, checkDuplicateTables_app,
    checkPublicationCoverage_app]
  rfl

/-- Every run of the check sequence returns normally. -/
theorem runChecks_isOk (st : VState) (content : List Char) :
    ∃ st', runChecks st content = Except.ok st' :=
  ⟨_, runChecks_eq st content⟩

/-- The status produced by `_generate_report` is one of the three verdict
strings. -/
theorem generateReport_status_cases (st : VState) :
    (generateReport st).status = "failed" ∨
    (generateReport st).status = "passed_with_warnings" ∨
    (generateReport st).status = "passed" := by
  unfold generateReport
  by_cases he : st.errors.isEmpty
  · by_cases hw : st.warnings.isEmpty
    · simp [he, hw]
    · simp [he, hw]
  · simp [he]


/-! ## Helper lemmas: the duplicate-table scan counts pipe-heavy lines -/

theorem splitOnChar_ne_nil (sep : Char) (s : List Char) : splitOnChar sep s ≠ [] := by
  cases s with
  | nil => simp [splitOnChar]
  | cons c cs =>
    unfold splitOnChar
    dsimp only
    by_cases h : (c == sep) = true
    · simp [h]
    · rw [if_neg h]
      cases hr : splitOnChar sep cs with
      | nil => simp
      | cons g gs => simp

theorem headI_splitOnChar (sep : Char) :
    ∀ s : List Char, (splitOnChar sep s).headI = s.takeWhile (fun c => c != sep) := by
  intro s
  induction s with
  | nil => rfl
  | cons c cs ih =>
    unfold splitOnChar
    dsimp only
    by_cases h : c = sep
    · subst h
      simp [List.takeWhile_cons]
    · rw [if_neg (by simp [h])]
      cases hr : splitOnChar sep cs with
      | nil => exact absurd hr (splitOnChar_ne_nil sep cs)
      | cons g gs =>
        rw [hr] at ih
        simp only [List.headI]
        rw [List.takeWhile_cons, if_pos (by simp [h])]
        exact congrArg (c :: ·) ih

theorem splitOnChar_cons (sep c : Char) (cs : List Char) :
    splitOnChar sep (c :: cs) =
      if (c == sep) = true then [] :: splitOnChar sep cs
      else
        match splitOnChar sep cs with
        | [] => [[c]]
        | g :: gs => (c :: g) :: gs := rfl

theorem splitOnChar_append (sep : Char) :
    ∀ xs ys : List Char, (∀ c ∈ xs, (c == sep) = false) →
      splitOnChar sep (xs ++ ys) =
        (xs ++ (splitOnChar sep ys).headI) :: (splitOnChar sep ys).tail := by
  intro xs
  induction xs with
  | nil =>
    intro ys _
    rw [List.nil_append, List.nil_append]
    cases hr : splitOnChar sep ys with
    | nil => exact absurd hr (splitOnChar_ne_nil sep ys)
    | cons g gs => rfl
  | cons x xs ih =>
    intro ys hall
    have hx : (x == sep) = false := hall x (List.mem_cons_self _ _)
    rw [List.cons_append, splitOnChar_cons, if_neg (by simp [hx]),
      ih ys (fun c hc => hall c (List.mem_cons_of_mem _ hc)), List.cons_append]

theorem dropWhile_head_false (p : Char → Bool) :
    ∀ (l : List Char) (a : Char) (as : List Char), l.dropWhile p = a :: as → p a = false := by
  intro l
  induction l with
  | nil => intro a as h; cases h
  | cons c cs ih =>
    intro a as h
    rw [List.dropWhile_cons] at h
    by_cases hc : p c = true
    · rw [if_pos hc] at h
      exact ih a as h
    · rw [if_neg hc] at h
      cases h
      exact Bool.not_eq_true _ ▸ hc

/-- A `none` scan step leaves the pipe-heavy line count unchanged. -/
theorem linesWithPipes_cons_none (c : Char) (cs : List Char)
    (hm : tableRowMatchLen (c :: cs) = none) :
    linesWithPipes 3 (c :: cs) = linesWithPipes 3 cs := by
  by_cases hnl : c = '\n'
  · subst hnl
    unfold linesWithPipes
    rw [splitOnChar_cons, if_pos (by simp), List.filter_cons]
    simp
  · unfold linesWithPipes
    rw [splitOnChar_cons, if_neg (by simp [hnl])]
    cases hr : splitOnChar '\n' cs with
    | nil => exact absurd hr (splitOnChar_ne_nil _ _)
    | cons g gs =>
      dsimp only
      have hg : g = cs.takeWhile (fun x => x != '\n') := by
        have h0 := headI_splitOnChar '\n' cs
        rw [hr] at h0
        exact h0
      rw [List.filter_cons, List.filter_cons]
      by_cases hp : c = '|'
      · subst hp
        unfold tableRowMatchLen at hm
        dsimp only at hm
        rw [if_pos (by simp)] at hm
        have hline : ¬ 3 ≤ ((('|' : Char) :: cs).takeWhile (fun x => x != '\n')).count '|' := by
          intro hcon
          rw [if_pos hcon] at hm
          cases hm
        rw [List.takeWhile_cons, if_pos (by simp), ← hg] at hline
        have h1 : ¬ 3 ≤ (('|' : Char) :: g).count '|' := hline
        have h2 : ¬ 3 ≤ g.count '|' := by
          rw [List.count_cons] at h1
          simp at h1
          omega
        rw [if_neg (by simpa using h1), if_neg (by simpa using h2)]
      · have hcnt : (c :: g).count '|' = g.count '|' := by
          simp [List.count_cons, hp]
        rw [hcnt]
        by_cases h3 : (3 : Nat) ≤ g.count '|'
        · rw [if_pos (by simpa using h3), if_pos (by simpa using h3)]
          rfl
        · rw [if_neg (by simpa using h3), if_neg (by simpa using h3)]

/-- A successful scan step consumes at least one character, stays within
the input, and accounts for exactly one pipe-heavy line. -/
theorem tableRowMatchLen_some (s : List Char) (k : Nat)
    (hm : tableRowMatchLen s = some k) :
    1 ≤ k ∧ k ≤ s.length ∧ linesWithPipes 3 s = 1 + linesWithPipes 3 (s.drop k) := by
  cases s with
  | nil => cases hm
  | cons c cs =>
    unfold tableRowMatchLen at hm
    dsimp only at hm
    by_cases hc : (c == '|') = true
    · rw [if_pos hc] at hm
      have hceq : c = '|' := by simpa using hc
      subst hceq
      by_cases hcount : 3 ≤ ((('|' : Char) :: cs).takeWhile (fun x => x != '\n')).count '|'
      · rw [if_pos hcount] at hm
        injection hm with hk
        set line : List Char := (('|' : Char) :: cs).takeWhile (fun x => x != '\n') with hlinedef
        set w : List Char := List.rtakeWhile (fun x => x != '|') line with hwdef
        have hlen_rw : (line.reverse.takeWhile (fun x => x != '|')).length = w.length := by
          rw [hwdef, List.rtakeWhile, List.length_reverse]
        have hmem : '|' ∈ line := by
          have hpos : 0 < line.count '|' := by omega
          exact List.count_pos_iff.mp hpos
        have hwsuf : w <:+ line := List.rtakeWhile_suffix _ _
        have hwle : w.length ≤ line.length := hwsuf.length_le
        have hwlt : w.length < line.length := by
          rcases Nat.lt_or_ge w.length line.length with hlt | hge
          · exact hlt
          · exfalso
            have heq : w = line := hwsuf.eq_of_length (Nat.le_antisymm hwle hge)
            have hmw : ('|' : Char) ∈ List.rtakeWhile (fun x => x != '|') line := by
              rw [← hwdef, heq]
              exact hmem
            have hq := List.mem_rtakeWhile_imp hmw
            simp at hq
        have hkval : k = line.length - w.length := by
          rw [← hk, hlen_rw]
        have hk1 : 1 ≤ k := by omega
        obtain ⟨pre, hpre⟩ := hwsuf
        have hprelen : pre.length = k := by
          have hlena := congrArg List.length hpre
          rw [List.length_append] at hlena
          omega
        have hdropline : line.drop k = w := by
          rw [← hprelen, ← hpre, List.drop_left]
        have hsplit : line ++ (('|' : Char) :: cs).dropWhile (fun x => x != '\n') =
            ('|' : Char) :: cs := List.takeWhile_append_dropWhile _ _
        have hlinele : line.length ≤ (('|' : Char) :: cs).length :=
          (List.takeWhile_prefix _).length_le
        have hkle : k ≤ (('|' : Char) :: cs).length := by omega
        have hdrops : (('|' : Char) :: cs).drop k =
            w ++ (('|' : Char) :: cs).dropWhile (fun x => x != '\n') := by
          conv_lhs => rw [← hsplit]
          rw [List.drop_append_eq_append_drop, hdropline,
            Nat.sub_eq_zero_of_le (by omega : k ≤ line.length), List.drop_zero]
        have hlineNoNl : ∀ x ∈ line, (x == '\n') = false := by
          intro x hx
          have hq := List.mem_takeWhile_imp hx
          simpa [bne] using hq
        have hwNoNl : ∀ x ∈ w, (x == '\n') = false := by
          intro x hx
          refine hlineNoNl x ?_
          rw [← hpre]
          exact List.mem_append_right _ hx
        have hwNoPipe : ('|' : Char) ∉ w := by
          intro hx
          rw [hwdef] at hx
          have hq := List.mem_rtakeWhile_imp hx
          simp at hq
        have hwcount : w.count '|' = 0 := List.count_eq_zero.mpr hwNoPipe
        refine ⟨hk1, hkle, ?_⟩
        cases hrest : (('|' : Char) :: cs).dropWhile (fun x => x != '\n') with
        | nil =>
          have hsl : ('|' : Char) :: cs = line ++ [] := by
            rw [List.append_nil]
            rw [hrest, List.append_nil] at hsplit
            exact hsplit.symm
          unfold linesWithPipes
          rw [hdrops, hrest]
          conv_lhs => rw [hsl]
          rw [splitOnChar_append '\n' line [] hlineNoNl,
            splitOnChar_append '\n' w [] hwNoNl]
          simp only [show splitOnChar '\n' [] = [[]] from rfl, List.headI, List.tail_cons,
            List.append_nil]
          rw [List.filter_cons, List.filter_cons]
          rw [if_pos (by simpa using hcount), if_neg (by simp [hwcount])]
          rw [List.length_cons]
          omega
        | cons d ds =>
          have hd : d = '\n' := by
            have hq := dropWhile_head_false _ _ _ _ hrest
            simpa [bne] using hq
          subst hd
          have hsl : ('|' : Char) :: cs = line ++ ('\n' : Char) :: ds := by
            rw [hrest] at hsplit
            exact hsplit.symm
          unfold linesWithPipes
          rw [hdrops, hrest]
          conv_lhs => rw [hsl]
          rw [splitOnChar_append '\n' line (('\n' : Char) :: ds) hlineNoNl,
            splitOnChar_append '\n' w (('\n' : Char) :: ds) hwNoNl]
          rw [splitOnChar_cons, if_pos (by simp)]
          simp only [List.headI, List.tail_cons, List.append_nil]
          rw [List.filter_cons, List.filter_cons]
          rw [if_pos (by simpa using hcount), if_neg (by simp [hwcount])]
          rw [List.length_cons]
          omega
      · rw [if_neg hcount] at hm
        cases hm
    · rw [if_neg hc] at hm
      cases hm

/-- The scan with sufficient fuel counts exactly the lines holding at
least three pipe characters. -/
theorem tableRowScanGo_eq :
    ∀ (fuel : Nat) (s : List Char), s.length ≤ fuel →
      tableRowScanGo fuel s = linesWithPipes 3 s := by
  intro fuel
  induction fuel with
  | zero =>
    intro s h
    have hs : s = [] := List.eq_nil_of_length_eq_zero (Nat.le_zero.mp h)
    subst hs
    rfl
  | succ fuel ih =>
    intro s h
    cases s with
    | nil => rfl
    | cons c cs =>
      cases hm : tableRowMatchLen (c :: cs) with
      | none =>
        have hstep : tableRowScanGo (fuel + 1) (c :: cs) = tableRowScanGo fuel cs := by
          conv_lhs => unfold tableRowScanGo
          rw [hm]
        rw [hstep, ih cs (Nat.le_of_succ_le_succ h)]
        exact (linesWithPipes_cons_none c cs hm).symm
      | some k =>
        obtain ⟨hk1, hkle, hcount⟩ := tableRowMatchLen_some (c :: cs) k hm
        have hmax : max k 1 = k := Nat.max_eq_left hk1
        have hstep : tableRowScanGo (fuel + 1) (c :: cs) =
            1 + tableRowScanGo fuel ((c :: cs).drop k) := by
          conv_lhs => unfold tableRowScanGo
          rw [hm]
          dsimp only
          rw [hmax]
        have hlen : ((c :: cs).drop k).length ≤ fuel := by
          rw [List.length_drop]
          simp only [List.length_cons] at h hkle ⊢
          omega
        rw [hstep, ih _ hlen, hcount]

/-- `len(re.findall(r'\|.*\|.*\|', content))` equals the number of lines
containing at least three pipe characters. -/
theorem tableRowScan_eq_lines (content : List Char) :
    tableRowScan content = linesWithPipes 3 content :=
  tableRowScanGo_eq content.length content (Nat.le_refl _)


/-! ## Claim theorems -/

/-- C1: for every validation run, the derived verdict is `failed` iff the
errors bucket is non-empty; otherwise `passed_with_warnings` iff the
warnings bucket is non-empty; otherwise `passed` — exactly one of the
three verdicts holds for every combination of bucket contents. -/
theorem C1_verdict_trichotomy (st : VState) :
    ((generateReport st).status = "failed" ↔ st.errors ≠ []) ∧
    ((generateReport st).status = "passed_with_warnings" ↔
      (st.errors = [] ∧ st.warnings ≠ [])) ∧
    ((generateReport st).status = "passed" ↔ (st.errors = [] ∧ st.warnings = [])) := by
  unfold generateReport
  by_cases he : st.errors = []
  · by_cases hw : st.warnings = []
    · simp [he, hw]
    · simp [he, hw]
  · simp [he]

set_option maxRecDepth 100000 in
/-- C2 counterexample: the report text `800-215` mentions publication
`800-215` (its numeric search pattern occurs in the text), yet the
date-consistency check emits no finding at all for it — the buckets stay
empty — refuting "exactly one finding when the report mentions that
publication". -/
theorem C2_counterexample_mention_without_finding :
    numericPatternStr "800-215" = some "800-215" ∧
    (searchIdx true (compilePat "800-215") mentionOnlyText).isSome = true ∧
    checkPublicationDates VState.init mentionOnlyText = Except.ok VState.init := by
  refine ⟨rfl, rfl, rfl⟩

/-- C2 amended: the date-consistency check treats each publication's two
search patterns independently; for each pattern that matches the text
(case-insensitively) it emits exactly one finding iff at least one
ISO-format date occurs in the ±200-character window around the first
match — a Pass when the canonical date is among those dates, otherwise a
Warning naming the expected and first-found date — and emits nothing for
a pattern that does not match (in particular nothing for an unmentioned
publication) and nothing when the window holds no ISO date. -/
theorem C2_date_consistency_amended (st : VState) (content : List Char) :
    checkPublicationDates st content =
      Except.ok
        { errors := st.errors,
          warnings := st.warnings ++ sevMsgs Sev.warn (dateFindings content),
          passed_checks := st.passed_checks ++ sevMsgs Sev.pass (dateFindings content) } :=
  checkPublicationDates_eq st content

set_option maxRecDepth 100000 in
/-- C3: evaluation of the URL-format check at the inputs the claim names:
the canonical sub-revision URL of SP 800-218A does NOT match the code's
template (the segment class `[^/\s]+` cannot contain `/`), so the check
emits a Warning for it rather than the Pass the specification requires,
while `.../800/210/` is (correctly) a Warning and a single-segment
`.../800/218/final` a Pass. -/
theorem C3_url_template_evaluation :
    urlWellFormed subRevisionUrl = false ∧
    urlWellFormed "https://csrc.nist.gov/pubs/sp/800/210/".toList = false ∧
    urlWellFormed "https://csrc.nist.gov/pubs/sp/800/218/final".toList = true ∧
    findURLs subRevisionReport = [subRevisionUrl] ∧
    checkUrls VState.init subRevisionReport =
      VState.init.addWarning (urlBadMsg subRevisionUrl.asString) := by
  refine ⟨rfl, rfl, rfl, rfl, rfl⟩

/-- C4: the section-presence check emits, per required heading, exactly
one Pass finding when the heading occurs as a case-sensitive substring of
the report and exactly one Error naming it otherwise: the buckets receive
exactly the per-heading message lists over the duplicate-free six-element
heading list. -/
theorem C4_section_presence :
    (∀ (st : VState) (content : List Char),
      checkRequiredSections st content =
        { errors := st.errors ++
            (required_sections.filter
              (fun s => !listContainsSub s.toList content)).map sectionMissingMsg,
          warnings := st.warnings,
          passed_checks := st.passed_checks ++
            (required_sections.filter
              (fun s => listContainsSub s.toList content)).map sectionFoundMsg }) ∧
    required_sections.Nodup ∧ required_sections.length = 6 := by
  refine ⟨fun st content => checkRequiredSections_eq st content, ?_, rfl⟩
  decide

set_option maxRecDepth 100000 in
/-- C5 counterexample: a report of six lines each holding exactly two pipe
characters has more than 5 lines with two-or-more pipes, so the claim
demands a Warning, yet the check emits its Pass finding — the regex
`\|.*\|.*\|` requires three pipes per line. -/
theorem C5_counterexample_two_pipe_lines :
    linesWithPipes 2 twoPipeLinesText = 6 ∧
    5 < linesWithPipes 2 twoPipeLinesText ∧
    checkDuplicateTables VState.init twoPipeLinesText =
      VState.init.addPass singleTableMsg := by
  refine ⟨rfl, ?_, rfl⟩
  decide

/-- C5 amended: the duplicate-table check emits exactly one finding: a
Warning iff the number of lines containing three or more pipe characters
exceeds 5, and a Pass otherwise. -/
theorem C5_duplicate_tables_amended (st : VState) (content : List Char) :
    checkDuplicateTables st content =
      if 5 < linesWithPipes 3 content then
        st.addWarning (dupTablesMsg (linesWithPipes 3 content))
      else st.addPass singleTableMsg := by
  unfold checkDuplicateTables
  dsimp only
  rw [tableRowScan_eq_lines]

set_option maxRecDepth 100000 in
/-- C6 counterexample: on a fresh validator the six-heading report yields
`passed_with_warnings`, but when `validate_file` is invoked a second time
on the same validator instance (first on an empty report, which leaves six
section errors in the buckets), the same report yields `failed` — findings
do carry over between invocations on one validator. -/
theorem C6_counterexample_state_carryover :
    (validateContent VState.init fullHeadingsText).map ReportObj.status =
      Except.ok "passed_with_warnings" ∧
    (secondRunReport [] fullHeadingsText).map ReportObj.status = Except.ok "failed" := by
  refine ⟨rfl, rfl⟩

/-- C6 amended: a validator is constructed with all three buckets empty,
and a run started from empty buckets produces findings that are a function
of the report text alone; but `validate_file` does not reset the buckets,
so a run started from dirty buckets keeps every earlier finding in front
of its own (`st.app d`), which can change the later run's verdict. -/
theorem C6_buckets_amended (st : VState) (content : List Char) :
    VState.init.errors = [] ∧ VState.init.warnings = [] ∧
    VState.init.passed_checks = [] ∧
    ∃ d, runChecks VState.init content = Except.ok d ∧
      runChecks st content = Except.ok (st.app d) := by
  refine ⟨rfl, rfl, rfl, ?_⟩
  obtain ⟨d, hd⟩ := runChecks_isOk VState.init content
  refine ⟨d, hd, ?_⟩
  have happ := runChecks_app st VState.init content
  rw [VState.app_init_right] at happ
  rw [happ, hd]
  rfl

/-- C7 counterexample: a failed run's verdict object carries the errors
count but no `warnings` key even though the warnings bucket is non-empty,
refuting "contains both counts regardless of which status was derived". -/
theorem C7_counterexample_missing_count :
    generateReport ⟨["✗ Missing required section: Executive Summary"],
        ["⚠ Check URL format: https://csrc.nist.gov/pubs/sp/800/210/"], []⟩ =
      ⟨"failed", some 1, none⟩ := rfl

/-- C7 amended: the verdict object always carries one of the three status
strings; it carries the errors count exactly when the status is `failed`
and the warnings count exactly when the status is `passed_with_warnings`,
and no counts otherwise. -/
theorem C7_report_fields_amended (st : VState) :
    ((generateReport st).status = "failed" ∨
      (generateReport st).status = "passed_with_warnings" ∨
      (generateReport st).status = "passed") ∧
    (generateReport st).errorsCount =
      (if (generateReport st).status = "failed" then some st.errors.length else none) ∧
    (generateReport st).warningsCount =
      (if (generateReport st).status = "passed_with_warnings" then some st.warnings.length
        else none) := by
  refine ⟨generateReport_status_cases st, ?_, ?_⟩ <;>
    · unfold generateReport
      by_cases he : st.errors.isEmpty
      · by_cases hw : st.warnings.isEmpty
        · simp [he, hw]
        · simp [he, hw]
      · simp [he]

/-- C8: with a path argument supplied, the process exits 1 for a missing
file and for any fault while reading or validating, and for a run whose
report is produced it exits 0 iff the status is `passed` or
`passed_with_warnings` and 1 iff the status is `failed`. -/
theorem C8_exit_codes :
    mainExit true ReadResult.notFound = 1 ∧
    (∀ m, mainExit true (ReadResult.fault m) = 1) ∧
    (∀ (content : List Char) (rep : ReportObj),
      validateContent VState.init content = Except.ok rep →
      ((mainExit true (ReadResult.ok content) = 0 ↔
          rep.status = "passed" ∨ rep.status = "passed_with_warnings") ∧
        (mainExit true (ReadResult.ok content) = 1 ↔ rep.status = "failed"))) := by
  refine ⟨rfl, fun m => rfl, ?_⟩
  intro content rep h
  obtain ⟨st', hrun⟩ := runChecks_isOk VState.init content
  have hrep : rep = generateReport st' := by
    unfold validateContent at h
    rw [hrun] at h
    cases h
    rfl
  have hmain : mainExit true (ReadResult.ok content) =
      (if rep.status = "failed" then 1 else 0) := by
    simp only [mainExit, validateFileOutcome, h, if_true]
  rw [hmain]
  rcases generateReport_status_cases st' with hs | hs | hs
  · have hstat : rep.status = "failed" := by rw [hrep]; exact hs
    simp [hstat]
  · have hstat : rep.status = "passed_with_warnings" := by rw [hrep]; exact hs
    simp [hstat]
  · have hstat : rep.status = "passed" := by rw [hrep]; exact hs
    simp [hstat]

set_option maxRecDepth 100000 in
/-- C8 witness: the empty report misses every required heading, so its
status is `failed` and the process exits 1. -/
theorem C8_exit_codes_witness : mainExit true (ReadResult.ok []) = 1 :=
  (C8_exit_codes.2.2 [] ⟨"failed", some 6, none⟩ rfl).2.mpr rfl

/-- C9: the rule checks are total on every input text: the only check with
a fallible operation (`_check_publication_dates`, whose pattern building
indexes a split) returns normally for every text, and so does the whole
check sequence — anomalies surface only as findings in the buckets. -/
theorem C9_checks_never_raise (st : VState) (content : List Char) :
    (∃ st', checkPublicationDates st content = Except.ok st') ∧
    (∃ st', runChecks st content = Except.ok st') :=
  ⟨⟨_, checkPublicationDates_eq st content⟩, runChecks_isOk st content⟩

set_option maxRecDepth 100000 in
/-- C10: the reference entry `csf-2.0` is searched for with the pattern
`800-2.0` (whose `.` matches any character) and `SP csf 2.0`; on a report
that never contains `csf` in any letter case but holds `800-210` with the
ISO date `2024-02-26` nearby, the date-consistency check emits a Pass
finding attributed to `csf-2.0`. -/
theorem C10_csf_pattern_bleed :
    numericPatternStr "csf-2.0" = some "800-2.0" ∧
    spPatternStr "csf-2.0" = "SP csf 2.0" ∧
    searchIdx true (compilePat "csf") csfBleedText = none ∧
    checkPublicationDates VState.init csfBleedText =
      Except.ok ⟨[], [], [dateOkMsg "csf-2.0" "2024-02-26"]⟩ := by
  refine ⟨rfl, rfl, rfl, rfl⟩

end NISTValidator
